import Mathlib

/-!
Verification of `amalgamate_txt_to_gdoc.py`: a tool that concatenates text
files from a directory and uploads the result to a Google Doc in chunks.

Shallow embedding conventions:
* Python strings are modelled as `List Char` where index arithmetic matters
  (slicing), and as Lean `String` where only concatenation matters.
* Filesystem paths are lists of components (`List String`); `as_posix`
  is rendering with `/` between components.
* I/O outcomes (file reads, remote calls, OAuth flows) are passed in as
  explicit data or oracles; the functions under verification become total
  functions of those inputs, and side effects become explicit event traces.
-/

set_option maxRecDepth 100000

namespace Amalgamate

/-- Python `range(start, stop, step)` for non-negative arguments, as used by
`chunk_text` (`range(0, len(s), max_len)`).  Python raises on `step = 0`;
the claims only ever use `step ≥ 1`, and we return `[]` for `step = 0`. -/
def rangeStep (start stop step : Nat) : List Nat :=
  if h : 0 < step ∧ start < stop then
    start :: rangeStep (start + step) stop step
  else
    []
termination_by stop - start
decreasing_by omega

/-- Python slice `s[a : b]` for `0 ≤ a ≤ b` (the only shape `chunk_text`
uses: `s[i : i + max_len]`). -/
def pySlice (s : List Char) (a b : Nat) : List Char :=
  (s.drop a).take (b - a)

/-- Embedding of `chunk_text` (src/amalgamate_txt_to_gdoc.py:75-79):
`[s[i : i + max_len] for i in range(0, len(s), max_len)] if s else []`. -/
def chunk_text (s : List Char) (maxLen : Nat := 45000) : List (List Char) :=
  if s = [] then [] else (rangeStep 0 s.length maxLen).map (fun i => pySlice s i (i + maxLen))

/-- Take/drop presentation of chunking, used as a stepping stone in proofs
about `chunk_text`. -/
def chunksOf (L : Nat) (s : List Char) : List (List Char) :=
  if s = [] ∨ L = 0 then [] else s.take L :: chunksOf L (s.drop L)
termination_by s.length
decreasing_by
  simp only [List.length_drop]
  rcases s with _ | ⟨c, cs⟩
  · simp_all
  · rcases L with _ | n
    · simp_all
    · simp; omega

/-- Characters stripped by Python `str.rstrip()` (ASCII whitespace; the
strings this program builds end in ASCII whitespace only). -/
def isPyWhitespace (c : Char) : Bool :=
  c = ' ' || c = '\t' || c = '\n' || c = '\r' || c = '\x0b' || c = '\x0c'

/-- Python `s.rstrip()`: drop trailing whitespace. -/
def pyRstrip (s : String) : String :=
  String.mk (s.data.reverse.dropWhile isPyWhitespace).reverse

/-- `SEPARATOR = "\n" + ("-" * 72) + "\n\n"` (src/amalgamate_txt_to_gdoc.py:17). -/
def SEPARATOR : String :=
  "\n" ++ String.mk (List.replicate 72 '-') ++ "\n\n"

/-- Rendering of a path (a list of components) with `/` separators, as
`Path.as_posix()` / `str(Path)` produce on a POSIX system. -/
def pathPosix (comps : List String) : String :=
  String.intercalate "/" comps

/-- Outcome of `p.read_text(encoding=encoding, errors="replace")`:
`ok t` when the call returns text `t` (decode errors never raise here ―
with `errors="replace"` undecodable bytes are already substituted by
replacement characters inside `t`), `err m` when the call raises any other
exception whose message renders as `m`. -/
inductive ReadResult where
  | ok (text : String)
  | err (msg : String)
deriving DecidableEq, Repr

/-- A read oracle: what `p.read_text(encoding=enc, errors="replace")` does
for each path and encoding.  This stands for the state of the filesystem. -/
def ReadWorld : Type := List String → String → ReadResult

/-- Embedding of `read_file_text` (src/amalgamate_txt_to_gdoc.py:58-62):
returns the file text on success and the inline error marker
`f"[Error reading {p}: {e}]\n"` when the read raises. -/
def read_file_text (world : ReadWorld) (p : List String) (encoding : String) : String :=
  match world p encoding with
  | ReadResult.ok t => t
  | ReadResult.err e => "[Error reading " ++ pathPosix p ++ ": " ++ e ++ "]\n"

/-- A file as the File Collector sees it: its path components (for a file
under the base directory, the base components followed by the relative
components), and the `st_mtime` / `st_ctime` stat fields used as sort keys. -/
structure PyFile where
  comps : List String
  mtime : Int
  ctime : Int
deriving DecidableEq, Repr

/-- `Path.name`: the final path component. -/
def PyFile.name (f : PyFile) : String :=
  f.comps.getLastD ""

/-- `p.is_relative_to(base)` for plain paths: `base`'s components are an
initial segment of `p`'s. -/
def is_relative_to (p base : List String) : Bool :=
  match base with
  | [] => true
  | b :: bs =>
    match p with
    | [] => false
    | c :: cs => b == c && is_relative_to cs bs

/-- One entry of the `parts` list built by the loop in `build_combined_text`
(src/amalgamate_txt_to_gdoc.py:67-71): `header + body + SEPARATOR`, where
the header shows the path relative to `base` when possible, else the path
itself. -/
def filePart (world : ReadWorld) (base : List String) (encoding : String) (f : PyFile) : String :=
  let rel := if is_relative_to f.comps base then f.comps.drop base.length else f.comps
  "### " ++ pathPosix rel ++ " ###\n\n" ++ read_file_text world f.comps encoding ++ SEPARATOR

/-- The `parts` list of `build_combined_text`, built file by file in order
as the `for f in files` loop does. -/
def build_parts (world : ReadWorld) (base : List String) (encoding : String) :
    List PyFile → List String
  | [] => []
  | f :: fs => filePart world base encoding f :: build_parts world base encoding fs

/-- Embedding of `build_combined_text` (src/amalgamate_txt_to_gdoc.py:65-72):
`"".join(parts).rstrip() + "\n"`. -/
def build_combined_text (world : ReadWorld) (files : List PyFile) (base : List String)
    (encoding : String) : String :=
  pyRstrip (String.join (build_parts world base encoding files)) ++ "\n"

/-- `fnmatch`-style matching of one glob pattern component against one path
component: `*` matches any run of characters, `?` any single character,
anything else itself.  (Models the patterns this program documents ―
`*.txt` and `**/*.txt`; bracket classes are not modelled.) -/
def fnmatchB : List Char → List Char → Bool
  | [], [] => true
  | [], _ :: _ => false
  | '*' :: ps, [] => fnmatchB ps []
  | '*' :: ps, c :: cs => fnmatchB ps (c :: cs) || fnmatchB ('*' :: ps) cs
  | '?' :: ps, [] => false
  | '?' :: ps, _ :: cs => fnmatchB ps cs
  | p :: ps, [] => false
  | p :: ps, c :: cs => p == c && fnmatchB ps cs
termination_by p s => (p.length, s.length)

/-- One segment of a glob pattern: `**` (any number of directory levels,
including zero) or an ordinary `fnmatch` component. -/
inductive GSeg where
  | deep
  | pat (p : String)
deriving DecidableEq, Repr

/-- Split a list of characters on `/`, accumulating the current component
in reverse. -/
def splitSlashAux : List Char → List Char → List String
  | [], acc => [String.mk acc.reverse]
  | c :: cs, acc =>
    if c = '/' then String.mk acc.reverse :: splitSlashAux cs []
    else splitSlashAux cs (c :: acc)

/-- Split a pattern string on `/` (as `"p".split("/")` would). -/
def splitSlash (s : String) : List String :=
  splitSlashAux s.data []

/-- Split a glob pattern on `/` into segments. -/
def parseGlob (pattern : String) : List GSeg :=
  (splitSlash pattern).map (fun s => if s = "**" then GSeg.deep else GSeg.pat s)

/-- Match a segment list against the components of a relative path. -/
def segsMatch : List GSeg → List String → Bool
  | [], [] => true
  | [], _ :: _ => false
  | GSeg.deep :: ss, [] => segsMatch ss []
  | GSeg.deep :: ss, c :: cs => segsMatch ss (c :: cs) || segsMatch (GSeg.deep :: ss) cs
  | GSeg.pat _ :: _, [] => false
  | GSeg.pat p :: ss, c :: cs => fnmatchB p.data c.data && segsMatch ss cs
termination_by ss cs => (ss.length, cs.length)

/-- `Path.rglob(pattern)` matching: per the Python documentation it is
`glob` with `"**/"` prepended to the pattern, so the relative path of a
file under the base directory matches at any depth. -/
def rglobMatches (pattern : String) (rel : List String) : Bool :=
  segsMatch (parseGlob ("**/" ++ pattern)) rel

/-- `list(directory.rglob(pattern))` over a filesystem `fs` listed in
enumeration order: the files under `base` whose relative path matches. -/
def pyRglob (base : List String) (pattern : String) (fs : List PyFile) : List PyFile :=
  fs.filter (fun f => is_relative_to f.comps base && rglobMatches pattern (f.comps.drop base.length))

/-- Insert `x` into `l` before the first element `y` with `le x y`.
Folding this over a list gives a stable sort; since any stable sort by a
total preorder produces the same output, this models Python's stable
`list.sort(key=...)`. -/
def insertLe (le : α → α → Bool) (x : α) : List α → List α
  | [] => [x]
  | y :: ys => if le x y then x :: y :: ys else y :: insertLe le x ys

/-- Stable sort by the boolean relation `le` (insertion sort). -/
def sortLe (le : α → α → Bool) : List α → List α
  | [] => []
  | x :: xs => insertLe le x (sortLe le xs)

/-- `files.sort(key=key)`: stable sort by a key drawn from a linear
order. -/
def sortByKey {β : Type} [LinearOrder β] (key : α → β) (l : List α) : List α :=
  sortLe (fun a b => decide (key a ≤ key b)) l

/-- `str.lower()` (ASCII model, matching the ASCII file names at issue). -/
def strLower (s : String) : String :=
  String.mk (s.data.map Char.toLower)

/-- Embedding of `gather_text_files` (src/amalgamate_txt_to_gdoc.py:45-55):
`files = list(directory.rglob(pattern))`, then an in-place stable sort by
lowercased name, mtime, or ctime; any other sort mode leaves the glob
order. -/
def gather_text_files (base : List String) (fs : List PyFile) (pattern sortMode : String) :
    List PyFile :=
  let files := pyRglob base pattern fs
  if sortMode = "name" then
    sortByKey (fun p => strLower p.name) files
  else if sortMode = "mtime" then
    sortByKey (fun p => p.mtime) files
  else if sortMode = "ctime" then
    sortByKey (fun p => p.ctime) files
  else
    files

/-- Example filesystem: a base directory `base` holding exactly `a.txt`
with content `hello` and `b.txt` with content `world`. -/
def exampleWorld : ReadWorld := fun p _ =>
  if p = ["base", "a.txt"] then ReadResult.ok "hello"
  else if p = ["base", "b.txt"] then ReadResult.ok "world"
  else ReadResult.err "No such file or directory"

/-- The file `base/a.txt` of the example filesystem. -/
def exampleA : PyFile := { comps := ["base", "a.txt"], mtime := 0, ctime := 0 }

/-- The file `base/b.txt` of the example filesystem. -/
def exampleB : PyFile := { comps := ["base", "b.txt"], mtime := 0, ctime := 0 }

/-- Where an `insertText` request places its text: the Docs API accepts a
concrete index (`location`) or the end of the segment
(`endOfSegmentLocation`); this program always uses the latter. -/
inductive InsertLocation where
  | endOfSegment
  | atIndex (index : Nat)
deriving DecidableEq, Repr

/-- One operation inside a `batchUpdate` body. -/
structure InsertTextOp where
  location : InsertLocation
  text : String
deriving DecidableEq, Repr

/-- One `documents().batchUpdate(documentId=..., body={"requests": [...]})`
call. -/
structure BatchUpdate where
  documentId : String
  requests : List InsertTextOp
deriving DecidableEq, Repr

/-- The request the loop body of `append_text_to_doc`
(src/amalgamate_txt_to_gdoc.py:92-104) builds for one chunk: a single
`insertText` at `endOfSegmentLocation`. -/
def mkInsertReq (docId : String) (piece : List Char) : BatchUpdate :=
  { documentId := docId
    requests := [{ location := InsertLocation.endOfSegment, text := String.mk piece }] }

/-- The `for piece in chunk_text(text)` loop of `append_text_to_doc`,
issuing one request per chunk.  `ok i` tells whether the `i`-th `.execute()`
succeeds; a raising request was still issued, and the exception aborts the
remaining iterations.  Returns the issued requests in order and the
outcome. -/
def appendLoop (docId : String) (ok : Nat → Bool) :
    Nat → List (List Char) → List BatchUpdate × Except String Unit
  | _, [] => ([], Except.ok ())
  | i, piece :: rest =>
    if ok i then
      let r := appendLoop docId ok (i + 1) rest
      (mkInsertReq docId piece :: r.1, r.2)
    else
      ([mkInsertReq docId piece], Except.error "HttpError")

/-- Embedding of `append_text_to_doc` (src/amalgamate_txt_to_gdoc.py:88-104):
chunk the text with the default maximum length and send each piece. -/
def append_text_to_doc (docId : String) (text : List Char) (ok : Nat → Bool) :
    List BatchUpdate × Except String Unit :=
  appendLoop docId ok 0 (chunk_text text)

/-- The fields of a loaded `google.oauth2.credentials.Credentials` object
that `get_credentials` inspects: `valid`, `expired`, and truthiness of
`refresh_token`. -/
structure StoredCreds where
  valid : Bool
  expired : Bool
  hasRefreshToken : Bool
deriving DecidableEq, Repr

/-- Observable side effects of `get_credentials`: a refresh round trip to
the token endpoint, the interactive local-server consent flow, and writing
`token.json`. -/
inductive AuthEvent where
  | refreshCall
  | runLocalServerFlow
  | writeTokenFile
deriving DecidableEq, Repr

/-- What `get_credentials` returns: the cached credential unchanged, a
refreshed credential, or a credential obtained from the consent flow. -/
inductive CredsResult where
  | cached (c : StoredCreds)
  | refreshed
  | fromFlow
deriving DecidableEq, Repr

/-- The environment `get_credentials` runs in: whether `token.json` exists
(and, when it does, the credential it parses to) and whether
`credentials.json` exists.  The refresh call and the consent flow are
modelled as succeeding; their failures would propagate out of the function
and are outside the claims under verification. -/
structure AuthEnv where
  tokenFileExists : Bool
  stored : StoredCreds
  credentialsFileExists : Bool
deriving DecidableEq, Repr

/-- The `FileNotFoundError` message raised when the interactive flow is
needed but `credentials.json` is absent. -/
def credentialsMissingMsg : String :=
  "credentials.json not found. Download OAuth client credentials from " ++
  "Google Cloud Console and place the file next to this script."

/-- Embedding of `get_credentials` (src/amalgamate_txt_to_gdoc.py:20-42):
load `token.json` if present; if the result is missing or invalid, refresh
when expired with a refresh token, else require `credentials.json` and run
the consent flow; persist the new token in either of those two branches.
Returns the credential and the ordered side-effect trace. -/
def get_credentials (env : AuthEnv) : Except String (CredsResult × List AuthEvent) :=
  let creds : Option StoredCreds :=
    if env.tokenFileExists then some env.stored else none
  match creds with
  | some c =>
    if c.valid then
      Except.ok (CredsResult.cached c, [])
    else if c.expired && c.hasRefreshToken then
      Except.ok (CredsResult.refreshed, [AuthEvent.refreshCall, AuthEvent.writeTokenFile])
    else if env.credentialsFileExists then
      Except.ok (CredsResult.fromFlow, [AuthEvent.runLocalServerFlow, AuthEvent.writeTokenFile])
    else
      Except.error credentialsMissingMsg
  | none =>
    if env.credentialsFileExists then
      Except.ok (CredsResult.fromFlow, [AuthEvent.runLocalServerFlow, AuthEvent.writeTokenFile])
    else
      Except.error credentialsMissingMsg

/-- The remote calls `main` can make, in order of occurrence. -/
inductive RemoteEvent where
  | getCredentialsCall
  | createDocCall (title : String)
  | batchUpdateCall (req : BatchUpdate)
deriving DecidableEq, Repr

/-- Command-line arguments of `main` with their argparse defaults
(src/amalgamate_txt_to_gdoc.py:107-142). -/
structure MainArgs where
  directory : List String
  pattern : String := "*.txt"
  title : String := "Amalgamated Text Files"
  encoding : String := "utf-8"
  sortMode : String := "name"
  recurse : Bool := false

/-- The world `main` runs in: whether the directory exists, the files the
glob can see (in enumeration order), the read oracle, the auth
environment, the id the Docs service returns at creation, and which
batch-update calls succeed. -/
structure MainEnv where
  dirExists : Bool
  fs : List PyFile
  world : ReadWorld
  auth : AuthEnv
  docId : String
  updateOk : Nat → Bool

/-- The effective pattern computed at src/amalgamate_txt_to_gdoc.py:148:
`"**/*.txt" if args.recurse and args.pattern == "*.txt" else args.pattern`. -/
def main_pattern (recurse : Bool) (pattern : String) : String :=
  if recurse && pattern == "*.txt" then "**/*.txt" else pattern

/-- Embedding of `main` (src/amalgamate_txt_to_gdoc.py:107-161): check the
directory, gather and sort the files, fail if none matched, assemble the
text, then get credentials, create the document and append the chunks.
Returns the trace of remote calls and either the printed URL or the
message of the `SystemExit` / exception that aborted the run (a non-zero
exit status). -/
def main (args : MainArgs) (env : MainEnv) : List RemoteEvent × Except String String :=
  if !env.dirExists then
    ([], Except.error ("Directory not found: " ++ pathPosix args.directory))
  else
    let pattern := main_pattern args.recurse args.pattern
    let files := gather_text_files args.directory env.fs pattern args.sortMode
    if files = [] then
      ([], Except.error "No files matched the pattern.")
    else
      let combined := build_combined_text env.world files args.directory args.encoding
      match get_credentials env.auth with
      | Except.error e => ([RemoteEvent.getCredentialsCall], Except.error e)
      | Except.ok _ =>
        let r := append_text_to_doc env.docId combined.data env.updateOk
        let events := RemoteEvent.getCredentialsCall ::
          RemoteEvent.createDocCall args.title :: r.1.map RemoteEvent.batchUpdateCall
        match r.2 with
        | Except.error e => (events, Except.error e)
        | Except.ok _ =>
          (events, Except.ok ("https://docs.google.com/document/d/" ++ env.docId ++ "/edit"))

/-! ## Properties of the chunker -/

theorem range_slice (s : List Char) (L : Nat) (hL : 1 ≤ L) :
    ∀ (m i : Nat), s.length ≤ i + m →
      (rangeStep i s.length L).map (fun k => pySlice s k (k + L)) = chunksOf L (s.drop i) := by
  intro m
  induction m with
  | zero =>
    intro i hi
    rw [rangeStep, chunksOf]
    have h1 : ¬(0 < L ∧ i < s.length) := by omega
    have h2 : s.drop i = [] := List.drop_eq_nil_of_le (by omega)
    simp [h1, h2]
  | succ m ih =>
    intro i hi
    rw [rangeStep]
    by_cases h : i < s.length
    · have hg : 0 < L ∧ i < s.length := ⟨by omega, h⟩
      rw [dif_pos hg, List.map_cons]
      rw [chunksOf]
      have hne : ¬(s.drop i = [] ∨ L = 0) := by
        intro hor
        rcases hor with hnil | hL0
        · have hlen := congrArg List.length hnil
          simp at hlen
          omega
        · omega
      rw [if_neg hne]
      congr 1
      · simp [pySlice]
      · rw [ih (i + L) (by omega), List.drop_drop]
    · have h1 : ¬(0 < L ∧ i < s.length) := by omega
      have h2 : s.drop i = [] := List.drop_eq_nil_of_le (by omega)
      rw [dif_neg h1, chunksOf]
      simp [h2]

theorem chunk_text_eq_chunksOf (s : List Char) (L : Nat) :
    chunk_text s L = chunksOf L s := by
  by_cases hs : s = []
  · subst hs
    rw [chunk_text, chunksOf]
    simp
  · rcases Nat.eq_zero_or_pos L with hL | hL
    · subst hL
      rw [chunk_text, chunksOf, rangeStep]
      simp [hs]
    · rw [chunk_text, if_neg hs]
      have := range_slice s L hL s.length 0 (by omega)
      simpa using this

theorem chunksOf_flatten (L : Nat) (hL : 1 ≤ L) :
    ∀ (m : Nat) (s : List Char), s.length ≤ m → (chunksOf L s).flatten = s := by
  intro m
  induction m with
  | zero =>
    intro s hs
    have : s = [] := List.eq_nil_of_length_eq_zero (by omega)
    subst this
    rw [chunksOf]
    simp
  | succ m ih =>
    intro s hs
    rw [chunksOf]
    by_cases h : s = [] ∨ L = 0
    · rcases h with h | h
      · simp [h]
      · omega
    · rw [if_neg h, List.flatten_cons]
      rw [ih (s.drop L) (by simp; omega)]
      exact List.take_append_drop L s

theorem chunksOf_nil (L : Nat) : chunksOf L [] = [] := by
  rw [chunksOf]
  simp

theorem chunksOf_length_le (L : Nat) :
    ∀ (m : Nat) (s : List Char), s.length ≤ m → ∀ c ∈ chunksOf L s, c.length ≤ L := by
  intro m
  induction m with
  | zero =>
    intro s hs c hc
    have : s = [] := List.eq_nil_of_length_eq_zero (by omega)
    subst this
    rw [chunksOf_nil] at hc
    simp at hc
  | succ m ih =>
    intro s hs c hc
    rw [chunksOf] at hc
    by_cases h : s = [] ∨ L = 0
    · rw [if_pos h] at hc
      simp at hc
    · rw [if_neg h] at hc
      have hL0 : L ≠ 0 := fun hh => h (Or.inr hh)
      rcases List.mem_cons.mp hc with hc | hc
      · subst hc
        rw [List.length_take]
        exact Nat.min_le_left _ _
      · exact ih (s.drop L) (by simp; omega) c hc

theorem chunksOf_dropLast_length (L : Nat) :
    ∀ (m : Nat) (s : List Char), s.length ≤ m →
      ∀ c ∈ (chunksOf L s).dropLast, c.length = L := by
  intro m
  induction m with
  | zero =>
    intro s hs c hc
    have : s = [] := List.eq_nil_of_length_eq_zero (by omega)
    subst this
    rw [chunksOf_nil] at hc
    simp at hc
  | succ m ih =>
    intro s hs c hc
    rw [chunksOf] at hc
    by_cases h : s = [] ∨ L = 0
    · rw [if_pos h] at hc
      simp at hc
    · rw [if_neg h] at hc
      have hL0 : L ≠ 0 := fun hh => h (Or.inr hh)
      rcases hrest : chunksOf L (s.drop L) with _ | ⟨b, rest⟩
      · rw [hrest] at hc
        simp at hc
      · rw [hrest] at hc
        rw [List.dropLast_cons₂] at hc
        rcases List.mem_cons.mp hc with hc | hc
        · subst hc
          have hdrop : s.drop L ≠ [] := by
            intro hnil
            rw [hnil, chunksOf_nil] at hrest
            exact List.noConfusion hrest
          have hlen : L < s.length := by
            have := List.length_drop L s
            rcases Nat.lt_or_ge L s.length with hlt | hge
            · exact hlt
            · exact absurd (List.drop_eq_nil_of_le hge) hdrop
          rw [List.length_take]
          omega
        · rw [← hrest] at hc
          exact ih (s.drop L) (by simp; omega) c hc

/-- C1: for every string `s` and maximum chunk length `L ≥ 1`, the ordered
concatenation of the chunks returned by `chunk_text s L` equals `s`
exactly, and `chunk_text` returns the empty list exactly when `s` is
empty. -/
theorem chunk_text_concat_exact (s : List Char) (L : Nat) (hL : 1 ≤ L) :
    (chunk_text s L).flatten = s ∧ (chunk_text s L = [] ↔ s = []) := by
  rw [chunk_text_eq_chunksOf]
  refine ⟨chunksOf_flatten L hL s.length s le_rfl, ?_, ?_⟩
  · intro h
    by_contra hs
    rw [chunksOf, if_neg (by simp [hs]; omega)] at h
    exact List.noConfusion h
  · intro h
    subst h
    exact chunksOf_nil L

/-- Witness for C1 at the empty, single-character, and
exactly-boundary-sized inputs. -/
theorem chunk_text_concat_exact_witness :
    ((chunk_text [] 3).flatten = [] ∧ (chunk_text [] 3 = [] ↔ ([] : List Char) = [])) ∧
    ((chunk_text "a".data 3).flatten = "a".data ∧ (chunk_text "a".data 3 = [] ↔ "a".data = [])) ∧
    ((chunk_text "abcdef".data 3).flatten = "abcdef".data ∧
      (chunk_text "abcdef".data 3 = [] ↔ "abcdef".data = [])) :=
  ⟨chunk_text_concat_exact [] 3 (by decide),
   chunk_text_concat_exact "a".data 3 (by decide),
   chunk_text_concat_exact "abcdef".data 3 (by decide)⟩

/-- C2: for every non-empty string `s` and maximum chunk length `L ≥ 1`,
every chunk of `chunk_text s L` has length at most `L`, and every chunk
except the last has length exactly `L` (only the last may be shorter). -/
theorem chunk_text_chunk_lengths (s : List Char) (L : Nat) (hs : s ≠ []) (hL : 1 ≤ L) :
    (∀ c ∈ chunk_text s L, c.length ≤ L) ∧
    (∀ c ∈ (chunk_text s L).dropLast, c.length = L) := by
  rw [chunk_text_eq_chunksOf]
  exact ⟨chunksOf_length_le L s.length s le_rfl, chunksOf_dropLast_length L s.length s le_rfl⟩

/-- Witness for C2 at a concrete input with a short final chunk. -/
theorem chunk_text_chunk_lengths_witness :
    (∀ c ∈ chunk_text "abcde".data 2, c.length ≤ 2) ∧
    (∀ c ∈ (chunk_text "abcde".data 2).dropLast, c.length = 2) :=
  chunk_text_chunk_lengths "abcde".data 2 (by decide) (by decide)

/-! ## Properties of the text assembler -/

theorem build_parts_eq_map (world : ReadWorld) (base : List String) (enc : String) :
    ∀ files : List PyFile, build_parts world base enc files = files.map (filePart world base enc) := by
  intro files
  induction files with
  | nil => rfl
  | cons f fs ih => simp [build_parts, ih]

theorem build_parts_append (world : ReadWorld) (base : List String) (enc : String)
    (l₁ l₂ : List PyFile) :
    build_parts world base enc (l₁ ++ l₂) =
      build_parts world base enc l₁ ++ build_parts world base enc l₂ := by
  simp [build_parts_eq_map]

/-- Counterexample to C3: on the two-file example (`a.txt` = `hello`,
`b.txt` = `world`) the assembled text is NOT
`"### a.txt ###\n\nhello\n" + SEPARATOR + "### b.txt ###\n\nworld\n" + SEPARATOR`
right-trimmed and newline-terminated: the claimed string has a stray `\n`
after each body (each contribution is `header + body + SEPARATOR` with no
newline appended to the body, and `SEPARATOR` itself starts with the only
`\n`). -/
theorem build_combined_text_example_counterexample :
    build_combined_text exampleWorld [exampleA, exampleB] ["base"] "utf-8" ≠
      pyRstrip ("### a.txt ###\n\nhello\n" ++ SEPARATOR ++ "### b.txt ###\n\nworld\n" ++
        SEPARATOR) ++ "\n" := by
  decide

/-- C3 (amended): on the two-file example the assembled text equals
`"### a.txt ###\n\nhello" + SEPARATOR + "### b.txt ###\n\nworld" + SEPARATOR`
right-trimmed with one trailing newline (no extra `\n` after the bodies);
in general each file contributes
`"### <relative-path> ###\n\n" + body + SEPARATOR` (relative path against
the base directory when possible, else the path itself), and the output is
the concatenation of the contributions, right-trimmed, plus one newline. -/
theorem build_combined_text_spec :
    (build_combined_text exampleWorld [exampleA, exampleB] ["base"] "utf-8" =
      pyRstrip ("### a.txt ###\n\nhello" ++ SEPARATOR ++ "### b.txt ###\n\nworld" ++
        SEPARATOR) ++ "\n") ∧
    (∀ (world : ReadWorld) (files : List PyFile) (base : List String) (enc : String),
      build_combined_text world files base enc =
        pyRstrip (String.join (files.map (fun f =>
          "### " ++
            pathPosix (if is_relative_to f.comps base then f.comps.drop base.length
              else f.comps) ++
          " ###\n\n" ++ read_file_text world f.comps enc ++ SEPARATOR))) ++ "\n") := by
  constructor
  · decide
  · intro world files base enc
    rw [build_combined_text, build_parts_eq_map]
    rfl

/-- C4: `read_file_text` is a total function: a failing read with message
`m` yields the inline marker `"[Error reading <p>: <m>]\n"` instead of
propagating, the failing file's contribution is
`header + marker + SEPARATOR`, and every file before and after the
unreadable one is still processed by `build_combined_text`. -/
theorem read_errors_recovered (world : ReadWorld) (enc : String) (base : List String)
    (pre post : List PyFile) (bad : PyFile) (m : String)
    (h : world bad.comps enc = ReadResult.err m) :
    read_file_text world bad.comps enc =
      "[Error reading " ++ pathPosix bad.comps ++ ": " ++ m ++ "]\n" ∧
    filePart world base enc bad =
      "### " ++
        pathPosix (if is_relative_to bad.comps base then bad.comps.drop base.length
          else bad.comps) ++
      " ###\n\n" ++ ("[Error reading " ++ pathPosix bad.comps ++ ": " ++ m ++ "]\n") ++
      SEPARATOR ∧
    build_combined_text world (pre ++ bad :: post) base enc =
      pyRstrip (String.join (build_parts world base enc pre ++
        filePart world base enc bad :: build_parts world base enc post)) ++ "\n" := by
  refine ⟨?_, ?_, ?_⟩
  · rw [read_file_text, h]
  · rw [filePart, read_file_text, h]
  · rw [build_combined_text, build_parts_append, build_parts]

/-- Witness for C4: a file that fails with `Permission denied` contributes
its marker and the file after it is still assembled. -/
theorem read_errors_recovered_witness :
    read_file_text (fun _ _ => ReadResult.err "Permission denied") ["base", "bad.txt"]
      "utf-8" = "[Error reading base/bad.txt: Permission denied]\n" ∧
    build_combined_text (fun _ _ => ReadResult.err "Permission denied")
        [PyFile.mk ["base", "bad.txt"] 0 0, PyFile.mk ["base", "z.txt"] 0 0] ["base"]
        "utf-8" =
      pyRstrip (String.join (build_parts (fun _ _ => ReadResult.err "Permission denied")
        ["base"] "utf-8" [] ++
        filePart (fun _ _ => ReadResult.err "Permission denied") ["base"] "utf-8"
          (PyFile.mk ["base", "bad.txt"] 0 0) ::
        build_parts (fun _ _ => ReadResult.err "Permission denied") ["base"] "utf-8"
          [PyFile.mk ["base", "z.txt"] 0 0])) ++ "\n" := by
  have h := read_errors_recovered (fun _ _ => ReadResult.err "Permission denied") "utf-8"
    ["base"] [] [PyFile.mk ["base", "z.txt"] 0 0] (PyFile.mk ["base", "bad.txt"] 0 0)
    "Permission denied" rfl
  exact ⟨h.1, h.2.2⟩

/-! ## Properties of the credential provider -/

/-- C7: when `token.json` exists and loads to a valid credential,
`get_credentials` returns the cached credential as-is with an empty
side-effect trace: no consent flow is run, no refresh call is made, and
the token file is not rewritten. -/
theorem valid_token_used_as_is (env : AuthEnv)
    (h1 : env.tokenFileExists = true) (h2 : env.stored.valid = true) :
    get_credentials env = Except.ok (CredsResult.cached env.stored, []) := by
  rw [get_credentials]
  simp [h1, h2]

/-- Witness for C7 at a concrete valid cached token. -/
theorem valid_token_used_as_is_witness :
    get_credentials (AuthEnv.mk true (StoredCreds.mk true false true) false) =
      Except.ok (CredsResult.cached (StoredCreds.mk true false true), []) :=
  valid_token_used_as_is (AuthEnv.mk true (StoredCreds.mk true false true) false) rfl rfl

/-- C8: if the interactive flow is required (no stored credential, or a
stored credential that is invalid and not expired-with-refresh-token) and
`credentials.json` is absent, `get_credentials` fails with the
file-not-found error; and whenever a refreshed or flow-obtained credential
is returned, writing `token.json` is the last side effect before the
return. -/
theorem flow_needs_credentials_file_and_persists (env : AuthEnv) :
    ((env.tokenFileExists = false ∨
        (env.stored.valid = false ∧
          ¬(env.stored.expired = true ∧ env.stored.hasRefreshToken = true))) →
      env.credentialsFileExists = false →
      get_credentials env = Except.error credentialsMissingMsg) ∧
    (∀ evs : List AuthEvent,
      (get_credentials env = Except.ok (CredsResult.refreshed, evs) ∨
        get_credentials env = Except.ok (CredsResult.fromFlow, evs)) →
      evs.getLast? = some AuthEvent.writeTokenFile) := by
  obtain ⟨tok, ⟨v, e, r⟩, cf⟩ := env
  constructor
  · intro hflow hcred
    dsimp only at hflow hcred
    subst hcred
    rcases tok with _ | _ <;> rcases v with _ | _ <;> rcases e with _ | _ <;>
      rcases r with _ | _ <;> first | rfl | simp at hflow
  · intro evs hres
    rcases tok with _ | _ <;> rcases v with _ | _ <;> rcases e with _ | _ <;>
      rcases r with _ | _ <;> rcases cf with _ | _ <;>
      simp [get_credentials] at hres <;> subst hres <;> rfl

/-- Witness for C8: with no token file and no `credentials.json` the
function fails with the missing-prerequisite error, and on a refresh the
last side effect is the token-file write. -/
theorem flow_needs_credentials_file_and_persists_witness :
    get_credentials (AuthEnv.mk false (StoredCreds.mk false false false) false) =
      Except.error credentialsMissingMsg ∧
    ([AuthEvent.refreshCall, AuthEvent.writeTokenFile].getLast? =
      some AuthEvent.writeTokenFile) :=
  ⟨(flow_needs_credentials_file_and_persists
      (AuthEnv.mk false (StoredCreds.mk false false false) false)).1 (Or.inl rfl) rfl,
   (flow_needs_credentials_file_and_persists
      (AuthEnv.mk true (StoredCreds.mk false true true) false)).2
      [AuthEvent.refreshCall, AuthEvent.writeTokenFile] (Or.inl rfl)⟩

/-! ## Properties of the document publisher and of `main` -/

theorem appendLoop_all_ok (d : String) (ok : Nat → Bool) :
    ∀ (l : List (List Char)) (i : Nat), (∀ j, ok (i + j) = true) →
      appendLoop d ok i l = (l.map (mkInsertReq d), Except.ok ()) := by
  intro l
  induction l with
  | nil =>
    intro i h
    rfl
  | cons p rest ih =>
    intro i h
    have h0 : ok i = true := by simpa using h 0
    have hrec := ih (i + 1) (fun j => by
      have hh := h (j + 1)
      rw [show i + 1 + j = i + (j + 1) by omega]
      exact hh)
    simp [appendLoop, h0, hrec]

theorem appendLoop_fail (d : String) (ok : Nat → Bool) :
    ∀ (l : List (List Char)) (i k : Nat), (∀ j, j < k → ok (i + j) = true) →
      ok (i + k) = false → k < l.length →
      appendLoop d ok i l = ((l.take (k + 1)).map (mkInsertReq d), Except.error "HttpError") := by
  intro l
  induction l with
  | nil =>
    intro i k h hk hlen
    simp at hlen
  | cons p rest ih =>
    intro i k h hk hlen
    cases k with
    | zero =>
      have h0 : ok i = false := by simpa using hk
      simp [appendLoop, h0]
    | succ k =>
      have h0 : ok i = true := by simpa using h 0 (Nat.succ_pos k)
      have hrec := ih (i + 1) k
        (fun j hj => by
          have hh := h (j + 1) (by omega)
          rw [show i + 1 + j = i + (j + 1) by omega]
          exact hh)
        (by
          rw [show i + 1 + k = i + (k + 1) by omega]
          exact hk)
        (by simpa using hlen)
      simp [appendLoop, h0, hrec, List.take_succ_cons]

theorem appendLoop_trace_shape (d : String) (ok : Nat → Bool) :
    ∀ (l : List (List Char)) (i : Nat) (r : BatchUpdate), r ∈ (appendLoop d ok i l).1 →
      ∃ piece ∈ l, r = mkInsertReq d piece := by
  intro l
  induction l with
  | nil =>
    intro i r hr
    simp [appendLoop] at hr
  | cons p rest ih =>
    intro i r hr
    rw [appendLoop] at hr
    by_cases h0 : ok i = true
    · rw [if_pos h0] at hr
      rcases List.mem_cons.mp hr with hr | hr
      · exact ⟨p, List.mem_cons_self p rest, hr⟩
      · obtain ⟨piece, hmem, hpe⟩ := ih (i + 1) r hr
        exact ⟨piece, List.mem_cons_of_mem p hmem, hpe⟩
    · rw [if_neg h0] at hr
      rcases List.mem_cons.mp hr with hr | hr
      · exact ⟨p, List.mem_cons_self p rest, hr⟩
      · simp at hr

/-- C6: `append_text_to_doc` issues exactly one remote update request per
chunk of `chunk_text text`, in chunk order, each containing a single
`insertText` operation at `endOfSegmentLocation` (no batching of chunks);
and the first failing request aborts all remaining chunk requests. -/
theorem append_one_request_per_chunk (d : String) (t : List Char) (ok : Nat → Bool) :
    (∀ r ∈ (append_text_to_doc d t ok).1, r.documentId = d ∧ r.requests.length = 1 ∧
      ∀ op ∈ r.requests, op.location = InsertLocation.endOfSegment) ∧
    ((∀ i, ok i = true) →
      append_text_to_doc d t ok = ((chunk_text t).map (mkInsertReq d), Except.ok ())) ∧
    (∀ k, (∀ j, j < k → ok j = true) → ok k = false → k < (chunk_text t).length →
      append_text_to_doc d t ok =
        (((chunk_text t).take (k + 1)).map (mkInsertReq d), Except.error "HttpError")) := by
  refine ⟨?_, ?_, ?_⟩
  · intro r hr
    obtain ⟨piece, _, hpe⟩ := appendLoop_trace_shape d ok (chunk_text t) 0 r hr
    subst hpe
    refine ⟨rfl, rfl, ?_⟩
    intro op hop
    rcases List.mem_cons.mp hop with hop | hop
    · subst hop
      rfl
    · simp at hop
  · intro hall
    exact appendLoop_all_ok d ok (chunk_text t) 0 (fun j => hall (0 + j))
  · intro k hlt hk hlen
    refine appendLoop_fail d ok (chunk_text t) 0 k (fun j hj => ?_) ?_ hlen
    · rw [Nat.zero_add]
      exact hlt j hj
    · rw [Nat.zero_add]
      exact hk

/-- Witness for C6: with every request succeeding, the trace is exactly
one request per chunk in order. -/
theorem append_one_request_per_chunk_witness :
    append_text_to_doc "doc1" "hi".data (fun _ => true) =
      ((chunk_text "hi".data).map (mkInsertReq "doc1"), Except.ok ()) :=
  (append_one_request_per_chunk "doc1" "hi".data (fun _ => true)).2.1 (fun _ => rfl)

/-- C5: when the directory exists but `gather_text_files` returns no
files, `main` terminates with the `SystemExit` error (a non-zero exit
status) and the remote-call trace is empty: neither `get_credentials` nor
`create_google_doc` nor `append_text_to_doc` is reached. -/
theorem no_files_no_remote_calls (args : MainArgs) (env : MainEnv)
    (hdir : env.dirExists = true)
    (hempty : gather_text_files args.directory env.fs
      (main_pattern args.recurse args.pattern) args.sortMode = []) :
    main args env = ([], Except.error "No files matched the pattern.") := by
  rw [main]
  simp [hdir, hempty]

/-- Witness for C5: an existing directory with an empty filesystem. -/
theorem no_files_no_remote_calls_witness :
    main (MainArgs.mk ["base"] "*.txt" "T" "utf-8" "name" false)
      (MainEnv.mk true [] exampleWorld (AuthEnv.mk true (StoredCreds.mk true false false) true)
        "ID" (fun _ => true)) = ([], Except.error "No files matched the pattern.") :=
  no_files_no_remote_calls _ _ rfl rfl

/-! ## Properties of the file collector: stable sorting -/

theorem mem_insertLe (le : α → α → Bool) (x : α) :
    ∀ (l : List α) (a : α), a ∈ insertLe le x l ↔ a = x ∨ a ∈ l := by
  intro l
  induction l with
  | nil =>
    intro a
    simp [insertLe]
  | cons y ys ih =>
    intro a
    rw [insertLe]
    by_cases h : le x y
    · rw [if_pos h]
      simp [List.mem_cons]
    · rw [if_neg h]
      simp only [List.mem_cons, ih a]
      tauto

theorem mem_sortLe (le : α → α → Bool) :
    ∀ (l : List α) (a : α), a ∈ sortLe le l ↔ a ∈ l := by
  intro l
  induction l with
  | nil =>
    intro a
    simp [sortLe]
  | cons x xs ih =>
    intro a
    rw [sortLe, mem_insertLe]
    simp [ih a]

theorem mem_sortByKey {β : Type} [LinearOrder β] (key : α → β) (l : List α) (a : α) :
    a ∈ sortByKey key l ↔ a ∈ l :=
  mem_sortLe _ l a

theorem pairwise_insertLe {β : Type} [LinearOrder β] (key : α → β) (x : α) :
    ∀ l : List α, List.Pairwise (fun a b => key a ≤ key b) l →
      List.Pairwise (fun a b => key a ≤ key b)
        (insertLe (fun a b => decide (key a ≤ key b)) x l) := by
  intro l
  induction l with
  | nil =>
    intro _
    simp [insertLe]
  | cons y ys ih =>
    intro hl
    rw [List.pairwise_cons] at hl
    obtain ⟨h1, h2⟩ := hl
    rw [insertLe]
    by_cases hxy : key x ≤ key y
    · rw [if_pos (by simpa using hxy), List.pairwise_cons]
      refine ⟨?_, List.pairwise_cons.mpr ⟨h1, h2⟩⟩
      intro z hz
      rcases List.mem_cons.mp hz with hz | hz
      · subst hz
        exact hxy
      · exact le_trans hxy (h1 z hz)
    · rw [if_neg (by simpa using hxy), List.pairwise_cons]
      refine ⟨?_, ih h2⟩
      intro z hz
      rcases (mem_insertLe _ x ys z).mp hz with hz | hz
      · subst hz
        exact le_of_not_le hxy
      · exact h1 z hz

theorem pairwise_sortByKey {β : Type} [LinearOrder β] (key : α → β) :
    ∀ l : List α, List.Pairwise (fun a b => key a ≤ key b) (sortByKey key l) := by
  intro l
  induction l with
  | nil =>
    exact List.Pairwise.nil
  | cons x xs ih =>
    exact pairwise_insertLe key x (sortLe _ xs) ih

theorem filter_insertLe {β : Type} [LinearOrder β] [DecidableEq β] (key : α → β) (k : β) (x : α) :
    ∀ l : List α,
      (insertLe (fun a b => decide (key a ≤ key b)) x l).filter (fun a => decide (key a = k)) =
        (if key x = k then x :: l.filter (fun a => decide (key a = k))
         else l.filter (fun a => decide (key a = k))) := by
  intro l
  induction l with
  | nil =>
    by_cases hk : key x = k <;> simp [insertLe, hk]
  | cons y ys ih =>
    rw [insertLe]
    by_cases hxy : key x ≤ key y
    · rw [if_pos (by simpa using hxy)]
      by_cases hk : key x = k <;> simp [hk, List.filter_cons]
    · rw [if_neg (by simpa using hxy)]
      have hylt : key y < key x := lt_of_not_le hxy
      by_cases hk : key x = k
      · have hyk : ¬(key y = k) := by
          intro hy
          rw [hk] at hylt
          rw [hy] at hylt
          exact lt_irrefl k hylt
        simp [List.filter_cons, hyk, ih, hk]
      · by_cases hyk : key y = k <;> simp [List.filter_cons, hyk, ih, hk]

theorem filter_sortByKey {β : Type} [LinearOrder β] [DecidableEq β] (key : α → β) (k : β) :
    ∀ l : List α,
      (sortByKey key l).filter (fun a => decide (key a = k)) =
        l.filter (fun a => decide (key a = k)) := by
  intro l
  induction l with
  | nil =>
    rfl
  | cons x xs ih =>
    show ((insertLe _ x (sortLe _ xs)).filter _) = _
    rw [filter_insertLe key k x (sortLe _ xs)]
    by_cases hk : key x = k <;> simp [List.filter_cons, hk, ← ih] <;> rfl

/-! ## Properties of the file collector: glob matching -/

theorem deep_match_iff (ss : List GSeg) :
    ∀ l : List String, segsMatch (GSeg.deep :: ss) l = true ↔
      ∃ l₁ l₂, l = l₁ ++ l₂ ∧ segsMatch ss l₂ = true := by
  intro l
  induction l with
  | nil =>
    rw [segsMatch]
    constructor
    · intro h
      exact ⟨[], [], rfl, h⟩
    · intro ⟨l₁, l₂, hsplit, hm⟩
      rcases List.append_eq_nil.mp hsplit.symm with ⟨h1, h2⟩
      subst h2
      exact hm
  | cons c cs ih =>
    rw [segsMatch, Bool.or_eq_true]
    constructor
    · intro h
      rcases h with h | h
      · exact ⟨[], c :: cs, rfl, h⟩
      · obtain ⟨l₁, l₂, hsplit, hm⟩ := ih.mp h
        exact ⟨c :: l₁, l₂, by rw [hsplit, List.cons_append], hm⟩
    · intro ⟨l₁, l₂, hsplit, hm⟩
      rcases l₁ with _ | ⟨d, ds⟩
      · left
        rw [List.nil_append] at hsplit
        rw [hsplit]
        exact hm
      · right
        rw [List.cons_append] at hsplit
        injection hsplit with h1 h2
        exact ih.mpr ⟨ds, l₂, h2, hm⟩

theorem deep_deep (ss : List GSeg) (l : List String) :
    segsMatch (GSeg.deep :: GSeg.deep :: ss) l = segsMatch (GSeg.deep :: ss) l := by
  rcases h1 : segsMatch (GSeg.deep :: ss) l with _ | _
  · rcases h2 : segsMatch (GSeg.deep :: GSeg.deep :: ss) l with _ | _
    · rfl
    · obtain ⟨l₁, l₂, hsplit, hm⟩ := (deep_match_iff (GSeg.deep :: ss) l).mp h2
      obtain ⟨m₁, m₂, hsplit2, hm2⟩ := (deep_match_iff ss l₂).mp hm
      have : segsMatch (GSeg.deep :: ss) l = true :=
        (deep_match_iff ss l).mpr ⟨l₁ ++ m₁, m₂, by rw [hsplit, hsplit2, List.append_assoc], hm2⟩
      rw [h1] at this
      exact this.symm
  · obtain ⟨l₁, l₂, hsplit, hm⟩ := (deep_match_iff ss l).mp h1
    have hsub : segsMatch (GSeg.deep :: ss) l₂ = true :=
      (deep_match_iff ss l₂).mpr ⟨[], l₂, rfl, hm⟩
    rw [(deep_match_iff (GSeg.deep :: ss) l).mpr ⟨l₁, l₂, hsplit, hsub⟩]

theorem rglobMatches_default (dirs : List String) (nm : String) :
    rglobMatches "*.txt" (dirs ++ [nm]) = fnmatchB "*.txt".data nm.data := by
  rw [rglobMatches]
  have hparse : parseGlob ("**/" ++ "*.txt") = [GSeg.deep, GSeg.pat "*.txt"] := rfl
  rw [hparse]
  rcases hnm : fnmatchB "*.txt".data nm.data with _ | _
  · rcases hmm : segsMatch [GSeg.deep, GSeg.pat "*.txt"] (dirs ++ [nm]) with _ | _
    · rfl
    · obtain ⟨l₁, l₂, hsplit, hm⟩ := (deep_match_iff [GSeg.pat "*.txt"] (dirs ++ [nm])).mp hmm
      rcases l₂ with _ | ⟨c, cs⟩
      · rw [segsMatch] at hm
        exact hm.symm
      · rcases cs with _ | ⟨d, ds⟩
        · have hc : nm = c := by
            have hg := congrArg (fun l => l.getLast? ) hsplit
            simpa using hg
          rw [hc] at hnm
          rw [segsMatch, Bool.and_eq_true] at hm
          exact absurd hm.1 (by simp [hnm])
        · rw [segsMatch, Bool.and_eq_true] at hm
          exact absurd hm.2 (by simp [segsMatch])
  · exact (deep_match_iff [GSeg.pat "*.txt"] (dirs ++ [nm])).mpr
      ⟨dirs, [nm], rfl, by rw [segsMatch, segsMatch, hnm]; rfl⟩

theorem splitSlashAux_no_slash :
    ∀ (cs acc : List Char), '/' ∉ cs →
      splitSlashAux cs acc = [String.mk (acc.reverse ++ cs)] := by
  intro cs
  induction cs with
  | nil =>
    intro acc h
    rw [splitSlashAux]
    simp
  | cons c cs ih =>
    intro acc h
    have hc : ¬(c = '/') := fun hh => h (hh ▸ List.mem_cons_self c cs)
    rw [splitSlashAux, if_neg hc]
    rw [ih (c :: acc) (fun hm => h (List.mem_cons_of_mem c hm))]
    simp

theorem splitSlash_two_segments (pattern : String) (h : '/' ∉ pattern.data) :
    splitSlash ("**/" ++ pattern) = ["**", pattern] := by
  rw [splitSlash]
  have hdata : ("**/" ++ pattern).data = '*' :: '*' :: '/' :: pattern.data := by
    simp [String.data_append]
  rw [hdata]
  rw [splitSlashAux, if_neg (by decide)]
  rw [splitSlashAux, if_neg (by decide)]
  rw [splitSlashAux, if_pos rfl]
  rw [splitSlashAux_no_slash pattern.data [] h]
  simp

theorem is_relative_to_append (base rest : List String) :
    is_relative_to (base ++ rest) base = true := by
  induction base with
  | nil =>
    simp [is_relative_to]
  | cons b bs ih =>
    rw [List.cons_append, is_relative_to]
    simp [ih]

theorem mem_gather_text_files (base : List String) (fs : List PyFile)
    (pattern sortMode : String) (f : PyFile) (h : f ∈ pyRglob base pattern fs) :
    f ∈ gather_text_files base fs pattern sortMode := by
  rw [gather_text_files]
  by_cases h1 : sortMode = "name"
  · rw [if_pos h1]
    exact (mem_sortByKey _ _ f).mpr h
  · rw [if_neg h1]
    by_cases h2 : sortMode = "mtime"
    · rw [if_pos h2]
      exact (mem_sortByKey _ _ f).mpr h
    · rw [if_neg h2]
      by_cases h3 : sortMode = "ctime"
      · rw [if_pos h3]
        exact (mem_sortByKey _ _ f).mpr h
      · rw [if_neg h3]
        exact h

/-- C9: `gather_text_files` matches recursively for every base directory,
pattern, and sort mode because it always calls `rglob`: a file nested in
any subdirectory whose name matches the pattern (any name-level pattern,
i.e. one without `/`) is included even though `--recurse` was not given;
and the `--recurse` flag only rewrites the pattern string from the
default `*.txt` to `**/*.txt` — a rewrite that is a no-op for matching. -/
theorem rglob_is_always_recursive :
    (∀ (base : List String) (fs : List PyFile) (pattern sortMode : String) (f : PyFile)
        (dirs : List String) (nm : String),
      '/' ∉ pattern.data →
      f ∈ fs → f.comps = base ++ (dirs ++ [nm]) →
      fnmatchB pattern.data nm.data = true →
      f ∈ gather_text_files base fs pattern sortMode) ∧
    (main_pattern true "*.txt" = "**/*.txt") ∧
    (∀ pattern : String, main_pattern false pattern = pattern) ∧
    (∀ (recurse : Bool) (pattern : String), pattern ≠ "*.txt" →
      main_pattern recurse pattern = pattern) ∧
    (∀ (base : List String) (fs : List PyFile) (sortMode : String),
      gather_text_files base fs "**/*.txt" sortMode = gather_text_files base fs "*.txt" sortMode) := by
  refine ⟨?_, rfl, ?_, ?_, ?_⟩
  · intro base fs pattern sortMode f dirs nm hslash hmem hcomps hnm
    apply mem_gather_text_files
    rw [pyRglob, List.mem_filter]
    refine ⟨hmem, ?_⟩
    rw [hcomps, Bool.and_eq_true]
    refine ⟨is_relative_to_append base (dirs ++ [nm]), ?_⟩
    rw [List.drop_left]
    rw [rglobMatches, parseGlob, splitSlash_two_segments pattern hslash]
    by_cases hpp : pattern = "**"
    · subst hpp
      have hm : (["**", "**"] : List String).map
          (fun s => if s = "**" then GSeg.deep else GSeg.pat s) =
          [GSeg.deep, GSeg.deep] := by simp
      rw [hm]
      exact (deep_match_iff [GSeg.deep] (dirs ++ [nm])).mpr
        ⟨dirs ++ [nm], [], (List.append_nil _).symm, by rw [segsMatch, segsMatch]⟩
    · have hm : (["**", pattern] : List String).map
          (fun s => if s = "**" then GSeg.deep else GSeg.pat s) =
          [GSeg.deep, GSeg.pat pattern] := by simp [hpp]
      rw [hm]
      exact (deep_match_iff [GSeg.pat pattern] (dirs ++ [nm])).mpr
        ⟨dirs, [nm], rfl, by rw [segsMatch, segsMatch]; simp [hnm]⟩
  · intro pattern
    rfl
  · intro recurse pattern hne
    rw [main_pattern]
    have hbeq : (pattern == "*.txt") = false := beq_eq_false_iff_ne.mpr hne
    simp [hbeq]
  · intro base fs sortMode
    have hrg : ∀ rel, rglobMatches "**/*.txt" rel = rglobMatches "*.txt" rel := by
      intro rel
      rw [rglobMatches, rglobMatches]
      have h1 : parseGlob ("**/" ++ "**/*.txt") =
          GSeg.deep :: GSeg.deep :: [GSeg.pat "*.txt"] := rfl
      have h2 : parseGlob ("**/" ++ "*.txt") = GSeg.deep :: [GSeg.pat "*.txt"] := rfl
      rw [h1, h2, deep_deep]
    have hfil : pyRglob base "**/*.txt" fs = pyRglob base "*.txt" fs := by
      rw [pyRglob, pyRglob]
      simp only [hrg]
    rw [gather_text_files, gather_text_files, hfil]

/-- Witness for C9: a file below the base directory whose name matches
the non-default pattern `*.md` is collected with a non-recursive
invocation. -/
theorem rglob_is_always_recursive_witness :
    PyFile.mk ["b", "sub", "n.md"] 0 0 ∈
      gather_text_files ["b"] [PyFile.mk ["b", "sub", "n.md"] 0 0] "*.md" "name" :=
  rglob_is_always_recursive.1 ["b"] [PyFile.mk ["b", "sub", "n.md"] 0 0] "*.md" "name"
    (PyFile.mk ["b", "sub", "n.md"] 0 0) ["sub"] "n.md" (by decide)
    (List.mem_singleton.mpr rfl) rfl (by simp [fnmatchB])

/-- C10: with sort mode `name`, `gather_text_files` orders the collected
files by the lowercased final path component only — the key of two files
with the same basename is equal whatever their directories — and the sort
is stable: the files whose key equals any fixed value keep their
glob-enumeration relative order. -/
theorem sort_by_name_basename_stable :
    (∀ (base : List String) (fs : List PyFile) (pattern : String),
      List.Pairwise (fun p q => strLower p.name ≤ strLower q.name)
        (gather_text_files base fs pattern "name")) ∧
    (∀ (base : List String) (fs : List PyFile) (pattern : String) (k : String),
      (gather_text_files base fs pattern "name").filter
          (fun p => decide (strLower p.name = k)) =
        (pyRglob base pattern fs).filter (fun p => decide (strLower p.name = k))) ∧
    (∀ p q : PyFile, p.name = q.name → strLower p.name = strLower q.name) := by
  refine ⟨?_, ?_, ?_⟩
  · intro base fs pattern
    rw [gather_text_files, if_pos rfl]
    exact pairwise_sortByKey (fun p => strLower p.name) (pyRglob base pattern fs)
  · intro base fs pattern k
    rw [gather_text_files, if_pos rfl]
    exact filter_sortByKey (fun p => strLower p.name) k (pyRglob base pattern fs)
  · intro p q h
    rw [h]

/-- Witness for C10: two files with the same basename in different
directories have the same sort key. -/
theorem sort_by_name_basename_stable_witness :
    strLower (PyFile.mk ["b", "d1", "x.txt"] 0 0).name =
      strLower (PyFile.mk ["b", "d2", "x.txt"] 1 1).name :=
  sort_by_name_basename_stable.2.2 (PyFile.mk ["b", "d1", "x.txt"] 0 0)
    (PyFile.mk ["b", "d2", "x.txt"] 1 1) rfl

end Amalgamate
